import Mathlib

/-!
Verification of the YerushalmiYomiCalculator module
(src/hebrewcalendar/YerushalmiYomiCalculator.ts of the KosherZmanim repository).

Embedding conventions:
  * A Temporal.PlainDate is embedded as an integer day number, measured in
    days since February 2, 1980 (the epoch DAF_YOMI_START_DAY), so the epoch
    itself is day 0.  PlainDate.compare, PlainDate.add of days and
    PlainDate.since(...).total(days) become integer comparison, addition and
    subtraction of day numbers.
  * The JewishCalendar collaborator (a class of this repository that is not
    part of the excerpt under verification) is embedded as a structure of
    functions, JewishCalendarApi: the Hebrew year of a civil date, the civil
    date of Yom Kippur (10 Tishrei) of a Hebrew year, the civil date of
    Tisha BeAv (9 Av) of a Hebrew year, and the two tests performed on
    getYomTovIndex of the requested date.  Theorems quantify over any such
    collaborator, adding as hypotheses only facts that hold of the real
    Hebrew calendar; concrete witnesses use histCal below, a historically
    accurate instance for Hebrew years 5740-5751.
-/

/-- Modelled from the spec: the external Hebrew-calendar collaborator (the
JewishCalendar class, which is not part of the excerpt under src), reduced
to the operations actually used by YerushalmiYomiCalculator: getJewishYear
of a date, the date of JewishCalendar(y, 7, 10) (Yom Kippur) and of
JewishCalendar(y, 5, 9) (Tisha BeAv) after setJewishYear(y), and the two
comparisons of getYomTovIndex against YOM_KIPPUR and TISHA_BEAV. -/
structure JewishCalendarApi where
  jewishYearOf : Int → Int
  yomKippurOf : Int → Int
  tishaBeavOf : Int → Int
  isYomKippur : Int → Bool
  isTishaBeav : Int → Bool

/-- Temporal.PlainDate.compare on day numbers: -1, 0 or 1. -/
def tcompare (a b : Int) : Int :=
  if a < b then -1 else if a = b then 0 else 1

/-- The start date of the first Daf Yomi Yerushalmi cycle, February 2, 1980
(15 Shevat 5740).  Day numbers are measured from this date, so it is day 0. -/
def DAF_YOMI_START_DAY : Int := 0

/-- The number of pages in the whole Talmud Yerushalmi. -/
def WHOLE_SHAS_DAFS : Int := 1554

/-- The number of pages per masechta (tractate), in order. -/
def BLATT_PER_MASECHTA : List Int := [68, 37, 34, 44, 31, 59, 26, 33, 28, 20, 13, 92, 65, 71, 22,
  22, 42, 26, 26, 33, 34, 22, 19, 85, 72, 47, 40, 47, 54, 48, 44, 37, 34, 44, 9, 57, 37, 19, 13]

/-- The rangeDates helper of the source file: both endpoint comparisons must
return a value in the accepted list, which is [1, 0] when inclusive (the
only mode used by the source, via the default argument). -/
def rangeDates (start middle endD : Int) (inclusive : Bool) : Bool :=
  let acceptedValues : List Int := if inclusive then [1, 0] else [1]
  acceptedValues.contains (tcompare middle start) && acceptedValues.contains (tcompare endD middle)

/-- getNumOfSpecialDays of the source: iterate Hebrew years from the year of
start through the year of endD inclusive; for each year add one for each of
Yom Kippur and Tisha BeAv of that year that lies in the closed range.  The
for loop over the integer interval is embedded as a foldl over
List.range of the interval length (zero iterations when the end year
precedes the start year, as in the source). -/
def getNumOfSpecialDays (cal : JewishCalendarApi) (start endD : Int) : Int :=
  let jewishStartYear := cal.jewishYearOf start
  let jewishEndYear := cal.jewishYearOf endD
  (List.range (jewishEndYear - jewishStartYear + 1).toNat).foldl
    (fun (specialDays : Int) (k : Nat) =>
      let i := jewishStartYear + (k : Int)
      let afterYK := if rangeDates start (cal.yomKippurOf i) endD true then specialDays + 1 else specialDays
      if rangeDates start (cal.tishaBeavOf i) endD true then afterYK + 1 else afterYK)
    0

/-- Generic helper: a foldl whose step never decreases the accumulator ends
at or above its starting value. -/
theorem le_foldl_of_step_le (f : Int → Nat → Int) (hf : ∀ a k, a ≤ f a k) :
    ∀ (l : List Nat) (a : Int), a ≤ l.foldl f a := by
  intro l
  induction l with
  | nil => intro a; simp
  | cons x xs ih => intro a; exact le_trans (hf a x) (ih (f a x))

/-- The special-day count is never negative: the loop only increments. -/
theorem getNumOfSpecialDays_nonneg (cal : JewishCalendarApi) (start endD : Int) :
    0 ≤ getNumOfSpecialDays cal start endD := by
  unfold getNumOfSpecialDays
  apply le_foldl_of_step_le
  intro a k
  dsimp only
  split <;> split <;> omega

/-- tcompare returns -1 exactly on strictly smaller inputs. -/
theorem tcompare_eq_neg_one {a b : Int} : tcompare a b = -1 ↔ a < b := by
  unfold tcompare
  split_ifs <;> simp <;> omega

/-- The cycle-search while loop of getDafYomiYerushalmi: while the candidate
next boundary is still strictly before the requested date, slide the
window one cycle forward; the next boundary advances by the nominal cycle
length and then additionally by the number of special days in the freshly
advanced window (two separate adds in the source, composed here).  On exit
it returns the pair (prevCycle, nextCycle). -/
def cycleLoop (cal : JewishCalendarApi) (requested prevCycle nextCycle : Int) : Int × Int :=
  if tcompare nextCycle requested = -1 then
    cycleLoop cal requested nextCycle
      (nextCycle + WHOLE_SHAS_DAFS + getNumOfSpecialDays cal nextCycle (nextCycle + WHOLE_SHAS_DAFS))
  else
    (prevCycle, nextCycle)
termination_by (requested - nextCycle).toNat
decreasing_by
  have hlt : nextCycle < requested := tcompare_eq_neg_one.mp (by assumption)
  have hnn : 0 ≤ getNumOfSpecialDays cal nextCycle (nextCycle + WHOLE_SHAS_DAFS) :=
    getNumOfSpecialDays_nonneg cal nextCycle (nextCycle + WHOLE_SHAS_DAFS)
  have h1554 : WHOLE_SHAS_DAFS = 1554 := rfl
  omega

/-- Unfolding equation for cycleLoop (the loop is defined by well-founded
recursion, so this equation is what proofs rewrite with). -/
theorem cycleLoop_eq (cal : JewishCalendarApi) (requested prevCycle nextCycle : Int) :
    cycleLoop cal requested prevCycle nextCycle =
      if tcompare nextCycle requested = -1 then
        cycleLoop cal requested nextCycle
          (nextCycle + WHOLE_SHAS_DAFS + getNumOfSpecialDays cal nextCycle (nextCycle + WHOLE_SHAS_DAFS))
      else
        (prevCycle, nextCycle) := by
  rw [cycleLoop]

/-- One iteration of the cycle-search loop. -/
theorem cycleLoop_step {cal : JewishCalendarApi} {requested prevCycle nextCycle : Int}
    (h : tcompare nextCycle requested = -1) :
    cycleLoop cal requested prevCycle nextCycle =
      cycleLoop cal requested nextCycle
        (nextCycle + WHOLE_SHAS_DAFS + getNumOfSpecialDays cal nextCycle (nextCycle + WHOLE_SHAS_DAFS)) := by
  rw [cycleLoop_eq, if_pos h]

/-- Exit of the cycle-search loop. -/
theorem cycleLoop_exit {cal : JewishCalendarApi} {requested prevCycle nextCycle : Int}
    (h : ¬ tcompare nextCycle requested = -1) :
    cycleLoop cal requested prevCycle nextCycle = (prevCycle, nextCycle) := by
  rw [cycleLoop_eq, if_neg h]

/-- A Daf: the Talmud volume (masechta) index and the page (daf) number, as
constructed by new Daf(masechta, total + 1) in the source. -/
structure Daf where
  masechta : Int
  page : Int
deriving DecidableEq

/-- Observable outcome of getDafYomiYerushalmi: the thrown
IllegalArgumentException, the null result, a Daf, or the undefined value the
non-null assertion would return if the final for loop found no tractate. -/
inductive YerushalmiResult where
  | thrown : YerushalmiResult
  | noDaf : YerushalmiResult
  | daf : Daf → YerushalmiResult
  | undef : YerushalmiResult
deriving DecidableEq

/-- The final for loop of getDafYomiYerushalmi: walk the page-count table;
at each tractate, if the remaining total is at most its page count, produce
Daf(masechta, total + 1) and break; otherwise subtract the page count and
advance masechta.  Falling off the end leaves dafYomi undefined (none). -/
def findDaf : Int → Int → List Int → Option Daf
  | _, _, [] => none
  | total, masechta, b :: bs =>
    if total ≤ b then some ⟨masechta, total + 1⟩
    else findDaf (total - b) (masechta + 1) bs

/-- getDafYomiYerushalmi of the source, on day numbers: first the holy-day
null return, then the pre-epoch throw, then the cycle-search loop from the
epoch, then total = dafNo - specialDays, then the table walk. -/
def getDafYomiYerushalmi (cal : JewishCalendarApi) (requested : Int) : YerushalmiResult :=
  if cal.isYomKippur requested || cal.isTishaBeav requested then
    YerushalmiResult.noDaf
  else if tcompare requested DAF_YOMI_START_DAY = -1 then
    YerushalmiResult.thrown
  else
    let prevCycle := (cycleLoop cal requested DAF_YOMI_START_DAY DAF_YOMI_START_DAY).1
    let dafNo := requested - prevCycle
    let specialDays := getNumOfSpecialDays cal prevCycle requested
    let total := dafNo - specialDays
    match findDaf total 0 BLATT_PER_MASECHTA with
    | some d => YerushalmiResult.daf d
    | none => YerushalmiResult.undef

/-- The adjusted offset of a date within the cycle that starts at prevCycle:
dafNo minus specialDays, exactly as lines 76-80 of the source compute
total. -/
def adjustedOffset (cal : JewishCalendarApi) (prevCycle requested : Int) : Int :=
  (requested - prevCycle) - getNumOfSpecialDays cal prevCycle requested

/-- Modelled from the spec: a concrete instance of the missing JewishCalendar
collaborator, historically accurate for Hebrew years 5740-5751.  This table
gives the day number (days since February 2, 1980) of 1 Tishrei (Rosh
Hashana) of each Hebrew year; outside the table it extends linearly with
355-day years, which keeps every function total while remaining correct on
the window actually exercised by the concrete dates below. -/
def histRH (y : Int) : Int :=
  if y ≤ 5739 then 355 * (y - 5740) - 133
  else if y = 5740 then -133
  else if y = 5741 then 222
  else if y = 5742 then 605
  else if y = 5743 then 959
  else if y = 5744 then 1314
  else if y = 5745 then 1699
  else if y = 5746 then 2053
  else if y = 5747 then 2436
  else if y = 5748 then 2791
  else if y = 5749 then 3145
  else if y = 5750 then 3528
  else if y = 5751 then 3883
  else 355 * (y - 5751) + 3883

/-- Modelled from the spec: the Hebrew year containing a given day number,
inverse to histRH on the tabulated window (clamped outside it). -/
def histYear (d : Int) : Int :=
  if d < -133 then 5739
  else if d < 222 then 5740
  else if d < 605 then 5741
  else if d < 959 then 5742
  else if d < 1314 then 5743
  else if d < 1699 then 5744
  else if d < 2053 then 5745
  else if d < 2436 then 5746
  else if d < 2791 then 5747
  else if d < 3145 then 5748
  else if d < 3528 then 5749
  else if d < 3883 then 5750
  else 5751

/-- Modelled from the spec: Yom Kippur (10 Tishrei) of a Hebrew year is nine
days after 1 Tishrei of that year. -/
def histYomKippur (y : Int) : Int := histRH y + 9

/-- Modelled from the spec: Tisha BeAv (9 Av) of a Hebrew year is 51 days
before 1 Tishrei of the following year (Av has 30 days, Elul has 29). -/
def histTishaBeav (y : Int) : Int := histRH (y + 1) - 51

/-- Modelled from the spec: the concrete collaborator instance.  A date is
Yom Kippur (respectively Tisha BeAv) exactly when it equals that holy day
of its own Hebrew year. -/
def histCal : JewishCalendarApi :=
  { jewishYearOf := histYear
    yomKippurOf := histYomKippur
    tishaBeavOf := histTishaBeav
    isYomKippur := fun d => decide (histYomKippur (histYear d) = d)
    isTishaBeav := fun d => decide (histTishaBeav (histYear d) = d) }

/-- rangeDates with the inclusive default is membership in the closed
interval. -/
theorem rangeDates_eq_decide (s m e : Int) :
    rangeDates s m e true = decide (s ≤ m ∧ m ≤ e) := by
  rw [Bool.eq_iff_iff]
  unfold rangeDates tcompare
  simp
  omega

/-- Contribution of a single Hebrew year to getNumOfSpecialDays: one for
each of the two holy days of that year lying in the closed range. -/
def specialDaysInYear (cal : JewishCalendarApi) (s e y : Int) : Int :=
  (if rangeDates s (cal.yomKippurOf y) e true then 1 else 0) +
  (if rangeDates s (cal.tishaBeavOf y) e true then 1 else 0)

/-- Generic helper: a foldl that adds an increment per element is the sum of
the increments. -/
theorem foldl_add_eq_sum (g : Nat → Int) :
    ∀ (l : List Nat) (a : Int), l.foldl (fun acc k => acc + g k) a = a + (l.map g).sum := by
  intro l
  induction l with
  | nil => intro a; simp
  | cons x xs ih => intro a; simp only [List.foldl_cons, List.map_cons, List.sum_cons, ih]; ring

/-- The special-day counting loop, rewritten as a sum of per-year
contributions. -/
theorem getNumOfSpecialDays_eq_sum (cal : JewishCalendarApi) (s e : Int) :
    getNumOfSpecialDays cal s e =
      ((List.range (cal.jewishYearOf e - cal.jewishYearOf s + 1).toNat).map
        (fun (k : Nat) => specialDaysInYear cal s e (cal.jewishYearOf s + (k : Int)))).sum := by
  unfold getNumOfSpecialDays
  have hbody :
      (fun (specialDays : Int) (k : Nat) =>
        let i := cal.jewishYearOf s + (k : Int)
        let afterYK := if rangeDates s (cal.yomKippurOf i) e true then specialDays + 1 else specialDays
        if rangeDates s (cal.tishaBeavOf i) e true then afterYK + 1 else afterYK) =
      (fun (acc : Int) (k : Nat) =>
        acc + specialDaysInYear cal s e (cal.jewishYearOf s + (k : Int))) := by
    funext acc k
    simp only [specialDaysInYear]
    split_ifs <;> ring
  simp only [hbody, foldl_add_eq_sum]
  rw [zero_add]

/-- When start and end coincide and neither holy day of that day's own year
falls on it, the special-day count is zero. -/
theorem getNumOfSpecialDays_self_eq_zero (cal : JewishCalendarApi) (d : Int)
    (hyk : cal.yomKippurOf (cal.jewishYearOf d) ≠ d)
    (htb : cal.tishaBeavOf (cal.jewishYearOf d) ≠ d) :
    getNumOfSpecialDays cal d d = 0 := by
  rw [getNumOfSpecialDays_eq_sum]
  have h1 : (cal.jewishYearOf d - cal.jewishYearOf d + 1).toNat = 1 := by omega
  rw [h1, show List.range 1 = [0] from rfl]
  simp only [List.map_cons, List.map_nil, List.sum_cons, List.sum_nil,
    add_zero, Nat.cast_zero]
  unfold specialDaysInYear
  rw [rangeDates_eq_decide, rangeDates_eq_decide,
    decide_eq_false (show ¬ (d ≤ cal.yomKippurOf (cal.jewishYearOf d) ∧
      cal.yomKippurOf (cal.jewishYearOf d) ≤ d) from by omega),
    decide_eq_false (show ¬ (d ≤ cal.tishaBeavOf (cal.jewishYearOf d) ∧
      cal.tishaBeavOf (cal.jewishYearOf d) ≤ d) from by omega)]
  norm_num

/-- C8: the entries of BLATT_PER_MASECHTA sum exactly to WHOLE_SHAS_DAFS
(1554). -/
theorem claim_C8_table_sums_to_cycle_length :
    BLATT_PER_MASECHTA.sum = WHOLE_SHAS_DAFS := by decide

/-- C4: a date whose yom tov index is Yom Kippur or Tisha BeAv is answered
with the null (no reading) result, regardless of its position relative to
the epoch or within a cycle. -/
theorem claim_C4_excluded_day_gives_noDaf (cal : JewishCalendarApi) (d : Int)
    (h : cal.isYomKippur d = true ∨ cal.isTishaBeav d = true) :
    getDafYomiYerushalmi cal d = YerushalmiResult.noDaf := by
  unfold getDafYomiYerushalmi
  have hb : (cal.isYomKippur d || cal.isTishaBeav d) = true := by
    rcases h with h | h <;> simp [h]
  rw [if_pos hb]

/-- Witness for C4: Tisha BeAv 5740 (July 22, 1980, day 171). -/
theorem claim_C4_witness :
    getDafYomiYerushalmi histCal 171 = YerushalmiResult.noDaf :=
  claim_C4_excluded_day_gives_noDaf histCal 171 (Or.inr (by decide))

/-- C10: the excluded-holy-day check precedes the epoch range validation:
a date strictly before the epoch that falls on Yom Kippur or Tisha BeAv is
answered with null, not with the out-of-range exception. -/
theorem claim_C10_holy_day_check_precedes_range_check (cal : JewishCalendarApi) (d : Int)
    (hpre : tcompare d DAF_YOMI_START_DAY = -1)
    (h : cal.isYomKippur d = true ∨ cal.isTishaBeav d = true) :
    getDafYomiYerushalmi cal d = YerushalmiResult.noDaf ∧
      getDafYomiYerushalmi cal d ≠ YerushalmiResult.thrown := by
  unfold getDafYomiYerushalmi
  have hb : (cal.isYomKippur d || cal.isTishaBeav d) = true := by
    rcases h with h | h <;> simp [h]
  rw [if_pos hb]
  exact ⟨rfl, by intro hc; cases hc⟩

/-- Witness for C10: Tisha BeAv 5739 (day -184, August 2, 1979), strictly
before the epoch. -/
theorem claim_C10_witness :
    getDafYomiYerushalmi histCal (-184) = YerushalmiResult.noDaf ∧
      getDafYomiYerushalmi histCal (-184) ≠ YerushalmiResult.thrown :=
  claim_C10_holy_day_check_precedes_range_check histCal (-184) (by decide) (Or.inr (by decide))

/-- C3 counterexample: Yom Kippur 5740 (October 1, 1979, day -124) is
strictly before the epoch, yet the call returns null instead of throwing,
because the holy-day check runs first.  This refutes the claim that all
pre-epoch dates, including the excluded holy days, throw. -/
theorem claim_C3_counterexample :
    tcompare (-124) DAF_YOMI_START_DAY = -1 ∧
      getDafYomiYerushalmi histCal (-124) ≠ YerushalmiResult.thrown := by
  constructor
  · decide
  · have hb : (histCal.isYomKippur (-124) || histCal.isTishaBeav (-124)) = true := by decide
    unfold getDafYomiYerushalmi
    rw [if_pos hb]
    intro hc; cases hc

/-- C3 as amended: every date strictly before the epoch that does not fall
on one of the two excluded holy days makes the call throw
IllegalArgumentException. -/
theorem claim_C3_amended_pre_epoch_throws (cal : JewishCalendarApi) (d : Int)
    (hpre : tcompare d DAF_YOMI_START_DAY = -1)
    (hyk : cal.isYomKippur d = false) (htb : cal.isTishaBeav d = false) :
    getDafYomiYerushalmi cal d = YerushalmiResult.thrown := by
  simp [getDafYomiYerushalmi, hyk, htb, hpre]

/-- Witness for the amended C3: day -1 (February 1, 1980). -/
theorem claim_C3_witness :
    getDafYomiYerushalmi histCal (-1) = YerushalmiResult.thrown :=
  claim_C3_amended_pre_epoch_throws histCal (-1) (by decide) (by decide) (by decide)

/-- Helper for C6: the table walk finds a tractate whenever the remaining
total is at most the sum of the (nonempty) remaining table. -/
theorem findDaf_isSome_of_le_sum :
    ∀ (l : List Int) (total masechta : Int), l ≠ [] → total ≤ l.sum →
      (findDaf total masechta l).isSome = true := by
  intro l
  induction l with
  | nil => intro total m h _; exact absurd rfl h
  | cons b bs ih =>
    intro total m _ hsum
    unfold findDaf
    by_cases htb : total ≤ b
    · rw [if_pos htb]; rfl
    · rw [if_neg htb]
      cases bs with
      | nil =>
        simp only [List.sum_cons, List.sum_nil, add_zero] at hsum
        omega
      | cons c cs =>
        apply ih
        · simp
        · simp only [List.sum_cons] at hsum ⊢
          omega

/-- C6: for every adjusted offset with 0 ≤ total < 1554, the page-mapping
walk over the volume table finds a matching volume; the fall-through branch
that would leave the result undefined is unreachable. -/
theorem claim_C6_walk_always_finds_volume (total : Int)
    (h0 : 0 ≤ total) (h1 : total < WHOLE_SHAS_DAFS) :
    (findDaf total 0 BLATT_PER_MASECHTA).isSome = true := by
  apply findDaf_isSome_of_le_sum
  · simp [BLATT_PER_MASECHTA]
  · have hs : BLATT_PER_MASECHTA.sum = 1554 := by decide
    have hw : WHOLE_SHAS_DAFS = 1554 := rfl
    omega

/-- Witness for C6 at the concrete offset 100. -/
theorem claim_C6_witness : (findDaf 100 0 BLATT_PER_MASECHTA).isSome = true :=
  claim_C6_walk_always_finds_volume 100 (by decide) (by decide)

/-- C7: on the epoch date itself the calculator returns volume 0, page 1.
The hypotheses are facts of the real Hebrew calendar: the epoch
(15 Shevat 5740) is not Yom Kippur or Tisha BeAv, and neither holy day of
the epoch's own Hebrew year falls on the epoch. -/
theorem claim_C7_epoch_gives_first_page (cal : JewishCalendarApi)
    (hyk : cal.isYomKippur DAF_YOMI_START_DAY = false)
    (htb : cal.isTishaBeav DAF_YOMI_START_DAY = false)
    (hykd : cal.yomKippurOf (cal.jewishYearOf DAF_YOMI_START_DAY) ≠ DAF_YOMI_START_DAY)
    (htbd : cal.tishaBeavOf (cal.jewishYearOf DAF_YOMI_START_DAY) ≠ DAF_YOMI_START_DAY) :
    getDafYomiYerushalmi cal DAF_YOMI_START_DAY = YerushalmiResult.daf ⟨0, 1⟩ := by
  have hcl : cycleLoop cal DAF_YOMI_START_DAY DAF_YOMI_START_DAY DAF_YOMI_START_DAY =
      (DAF_YOMI_START_DAY, DAF_YOMI_START_DAY) := cycleLoop_exit (by decide)
  have hsp : getNumOfSpecialDays cal DAF_YOMI_START_DAY DAF_YOMI_START_DAY = 0 :=
    getNumOfSpecialDays_self_eq_zero cal DAF_YOMI_START_DAY hykd htbd
  unfold getDafYomiYerushalmi
  rw [hyk, htb]
  simp only [Bool.or_self, Bool.false_eq_true, if_false]
  rw [if_neg (show ¬ tcompare DAF_YOMI_START_DAY DAF_YOMI_START_DAY = -1 from by decide)]
  simp only [hcl, hsp]
  decide

/-- Witness for C7: the historical collaborator instance at the epoch. -/
theorem claim_C7_witness :
    getDafYomiYerushalmi histCal DAF_YOMI_START_DAY = YerushalmiResult.daf ⟨0, 1⟩ :=
  claim_C7_epoch_gives_first_page histCal (by decide) (by decide) (by decide) (by decide)

/-- Generic helper: the sum of a map splits over pointwise addition. -/
theorem sum_map_add_int (f g : Nat → Int) :
    ∀ l : List Nat, (l.map (fun k => f k + g k)).sum = (l.map f).sum + (l.map g).sum := by
  intro l
  induction l with
  | nil => simp
  | cons x xs ih => simp only [List.map_cons, List.sum_cons, ih]; ring

/-- Generic helper: summing an indicator counts the filtered elements. -/
theorem sum_map_ite_one (p : Nat → Bool) :
    ∀ l : List Nat, (l.map (fun k => if p k then (1 : Int) else 0)).sum = ((l.filter p).length : Int) := by
  intro l
  induction l with
  | nil => simp
  | cons x xs ih =>
    simp only [List.map_cons, List.sum_cons, List.filter_cons, ih]
    by_cases h : p x <;> simp [h] <;> ring

/-- Modelled from the spec (SpecialDayCounter contract): for every Hebrew
year from the year of start through the year of endD inclusive, test each
of the two excluded holy-day instances of that year for membership in the
closed interval, counting each (year, holy-day-type) pair at most once. -/
def countSpecialDaysSpec (cal : JewishCalendarApi) (s e : Int) : Int :=
  (((List.range (cal.jewishYearOf e - cal.jewishYearOf s + 1).toNat).filter
      (fun (k : Nat) => decide (s ≤ cal.yomKippurOf (cal.jewishYearOf s + (k : Int)) ∧
        cal.yomKippurOf (cal.jewishYearOf s + (k : Int)) ≤ e))).length : Int) +
  (((List.range (cal.jewishYearOf e - cal.jewishYearOf s + 1).toNat).filter
      (fun (k : Nat) => decide (s ≤ cal.tishaBeavOf (cal.jewishYearOf s + (k : Int)) ∧
        cal.tishaBeavOf (cal.jewishYearOf s + (k : Int)) ≤ e))).length : Int)

/-- C5: getNumOfSpecialDays returns exactly the number of (Hebrew year,
holy-day-type) instances of the two excluded holy days lying in the closed
interval, iterating years from the year of start through the year of endD
inclusive with each pair counted at most once, and the count is
nonnegative. -/
theorem claim_C5_special_day_count_correct (cal : JewishCalendarApi) (s e : Int) :
    getNumOfSpecialDays cal s e = countSpecialDaysSpec cal s e ∧
      0 ≤ getNumOfSpecialDays cal s e := by
  constructor
  · rw [getNumOfSpecialDays_eq_sum]
    unfold countSpecialDaysSpec specialDaysInYear
    rw [show (fun (k : Nat) => (if rangeDates s (cal.yomKippurOf (cal.jewishYearOf s + (k : Int))) e true then (1 : Int) else 0) +
        (if rangeDates s (cal.tishaBeavOf (cal.jewishYearOf s + (k : Int))) e true then (1 : Int) else 0)) =
      (fun (k : Nat) => (if (decide (s ≤ cal.yomKippurOf (cal.jewishYearOf s + (k : Int)) ∧
          cal.yomKippurOf (cal.jewishYearOf s + (k : Int)) ≤ e) : Bool) then (1 : Int) else 0) +
        (if (decide (s ≤ cal.tishaBeavOf (cal.jewishYearOf s + (k : Int)) ∧
          cal.tishaBeavOf (cal.jewishYearOf s + (k : Int)) ≤ e) : Bool) then (1 : Int) else 0)) from by
        funext k; rw [rangeDates_eq_decide, rangeDates_eq_decide]]
    rw [sum_map_add_int, sum_map_ite_one, sum_map_ite_one]
  · exact getNumOfSpecialDays_nonneg cal s e

/-- A year past the Hebrew year of d1 contributes nothing to a count that
ends at d1, provided both holy days of such a year fall after d1. -/
theorem specialDaysInYear_eq_zero_of_late (cal : JewishCalendarApi) (prev d1 y : Int)
    (hyk : d1 < cal.yomKippurOf y) (htb : d1 < cal.tishaBeavOf y) :
    specialDaysInYear cal prev d1 y = 0 := by
  unfold specialDaysInYear
  rw [rangeDates_eq_decide, rangeDates_eq_decide,
    decide_eq_false (show ¬ (prev ≤ cal.yomKippurOf y ∧ cal.yomKippurOf y ≤ d1) from by omega),
    decide_eq_false (show ¬ (prev ≤ cal.tishaBeavOf y ∧ cal.tishaBeavOf y ≤ d1) from by omega)]
  norm_num

/-- Extending the end of the counting range from d1 to d2 does not change
the special-day count when no excluded holy day lies in the half-open
interval from d1 (exclusive) to d2 (inclusive), the Hebrew year is
monotone between d1 and d2, and every Hebrew year past the year of d1 has
both of its holy days after d1 (facts of the real Hebrew calendar). -/
theorem getNumOfSpecialDays_end_ext (cal : JewishCalendarApi) (prev d1 d2 : Int)
    (hd : d1 < d2)
    (hyear : cal.jewishYearOf d1 ≤ cal.jewishYearOf d2)
    (hyk2 : ∀ y : Int, ¬ (d1 < cal.yomKippurOf y ∧ cal.yomKippurOf y ≤ d2))
    (htb2 : ∀ y : Int, ¬ (d1 < cal.tishaBeavOf y ∧ cal.tishaBeavOf y ≤ d2))
    (hyks : ∀ y : Int, cal.jewishYearOf d1 < y → d1 < cal.yomKippurOf y)
    (htbs : ∀ y : Int, cal.jewishYearOf d1 < y → d1 < cal.tishaBeavOf y) :
    getNumOfSpecialDays cal prev d2 = getNumOfSpecialDays cal prev d1 := by
  rw [getNumOfSpecialDays_eq_sum, getNumOfSpecialDays_eq_sum]
  have hpt : ∀ y : Int, specialDaysInYear cal prev d2 y = specialDaysInYear cal prev d1 y := by
    intro y
    have h1 := hyk2 y
    have h2 := htb2 y
    unfold specialDaysInYear
    rw [rangeDates_eq_decide, rangeDates_eq_decide, rangeDates_eq_decide, rangeDates_eq_decide,
      decide_eq_decide.mpr (show (prev ≤ cal.yomKippurOf y ∧ cal.yomKippurOf y ≤ d2) ↔
        (prev ≤ cal.yomKippurOf y ∧ cal.yomKippurOf y ≤ d1) from by omega),
      decide_eq_decide.mpr (show (prev ≤ cal.tishaBeavOf y ∧ cal.tishaBeavOf y ≤ d2) ↔
        (prev ≤ cal.tishaBeavOf y ∧ cal.tishaBeavOf y ≤ d1) from by omega)]
  rw [funext (fun (k : Nat) => hpt (cal.jewishYearOf prev + (k : Int)))]
  rw [show (cal.jewishYearOf d2 - cal.jewishYearOf prev + 1).toNat =
      (cal.jewishYearOf d1 - cal.jewishYearOf prev + 1).toNat +
      ((cal.jewishYearOf d2 - cal.jewishYearOf prev + 1).toNat -
        (cal.jewishYearOf d1 - cal.jewishYearOf prev + 1).toNat) from by omega]
  rw [List.range_add, List.map_append, List.sum_append]
  have hzero : ((List.map (fun (k : Nat) => specialDaysInYear cal prev d1 (cal.jewishYearOf prev + (k : Int)))
      (List.map ((cal.jewishYearOf d1 - cal.jewishYearOf prev + 1).toNat + ·)
        (List.range ((cal.jewishYearOf d2 - cal.jewishYearOf prev + 1).toNat -
          (cal.jewishYearOf d1 - cal.jewishYearOf prev + 1).toNat)))).sum) = 0 := by
    apply List.sum_eq_zero
    intro x hx
    simp only [List.mem_map, List.mem_range] at hx
    obtain ⟨j, ⟨i, hi, rfl⟩, rfl⟩ := hx
    have hy : cal.jewishYearOf d1 <
        cal.jewishYearOf prev + (((cal.jewishYearOf d1 - cal.jewishYearOf prev + 1).toNat + i : Nat) : Int) := by
      push_cast
      omega
    exact specialDaysInYear_eq_zero_of_late cal prev d1 _ (hyks _ hy) (htbs _ hy)
  rw [hzero, add_zero]

/-- C9: within one cycle (offsets taken from the same previous boundary),
the adjusted offset is strictly monotone: if d1 is before d2 and no
excluded holy day lies after d1 and at or before d2, the offset of d1 is
strictly below the offset of d2.  The last two hypotheses are facts of the
real Hebrew calendar (holy days of later Hebrew years fall after d1). -/
theorem claim_C9_offset_strictly_monotone (cal : JewishCalendarApi) (prev d1 d2 : Int)
    (hd : d1 < d2)
    (hyear : cal.jewishYearOf d1 ≤ cal.jewishYearOf d2)
    (hyk2 : ∀ y : Int, ¬ (d1 < cal.yomKippurOf y ∧ cal.yomKippurOf y ≤ d2))
    (htb2 : ∀ y : Int, ¬ (d1 < cal.tishaBeavOf y ∧ cal.tishaBeavOf y ≤ d2))
    (hyks : ∀ y : Int, cal.jewishYearOf d1 < y → d1 < cal.yomKippurOf y)
    (htbs : ∀ y : Int, cal.jewishYearOf d1 < y → d1 < cal.tishaBeavOf y) :
    adjustedOffset cal prev d1 < adjustedOffset cal prev d2 := by
  have hext := getNumOfSpecialDays_end_ext cal prev d1 d2 hd hyear hyk2 htb2 hyks htbs
  unfold adjustedOffset
  omega

/-- Witness for C9: February 7 and 8 of 1980 (days 5 and 6), measured from
the epoch boundary, on the historical collaborator instance. -/
theorem claim_C9_witness : adjustedOffset histCal 0 5 < adjustedOffset histCal 0 6 := by
  apply claim_C9_offset_strictly_monotone histCal 0 5 6 (by decide) (by decide)
  · intro y
    show ¬ (5 < histYomKippur y ∧ histYomKippur y ≤ 6)
    unfold histYomKippur histRH
    omega
  · intro y
    show ¬ (5 < histTishaBeav y ∧ histTishaBeav y ≤ 6)
    unfold histTishaBeav histRH
    omega
  · intro y hy
    have h5 : histCal.jewishYearOf 5 = 5740 := by decide
    rw [h5] at hy
    show 5 < histYomKippur y
    unfold histYomKippur histRH
    omega
  · intro y hy
    have h5 : histCal.jewishYearOf 5 = 5740 := by decide
    rw [h5] at hy
    show 5 < histTishaBeav y
    unfold histTishaBeav histRH
    omega

/-- C1 evaluation at its failing input: the date 68 days after the epoch
(April 10, 1980) has adjusted offset 68 and the comparison total <=
BLATT_PER_MASECHTA[i] makes the walk stop at volume 0 with page 69, one
past that volume's page count of 68 - the invariant 1 <= page <= page
count is violated by the code. -/
theorem claim_C1_failing_eval :
    getDafYomiYerushalmi histCal 68 = YerushalmiResult.daf ⟨0, 69⟩ ∧
      ¬ ((⟨0, 69⟩ : Daf).page ≤ BLATT_PER_MASECHTA.getD 0 0) := by
  refine ⟨?_, by decide⟩
  have h1 : tcompare DAF_YOMI_START_DAY (68 : Int) = -1 := by decide
  have h2 : DAF_YOMI_START_DAY + WHOLE_SHAS_DAFS +
      getNumOfSpecialDays histCal DAF_YOMI_START_DAY (DAF_YOMI_START_DAY + WHOLE_SHAS_DAFS) = 1562 := by
    decide
  have hcl : cycleLoop histCal 68 DAF_YOMI_START_DAY DAF_YOMI_START_DAY =
      (DAF_YOMI_START_DAY, 1562) := by
    rw [cycleLoop_step h1, h2]
    exact cycleLoop_exit (by decide)
  unfold getDafYomiYerushalmi
  rw [if_neg (by decide), if_neg (by decide), hcl]
  decide

/-- C2 evaluation at its failing input: day 1562 is exactly the first cycle
boundary computed by the cycle-search loop (epoch + 1554 + 8 special days)
and is not an excluded holy day, yet the calculator returns volume 38 page
14 (a page past the last volume's 13 pages) instead of volume 0 page 1:
the boundary date is treated as the last day of the previous cycle with
adjusted offset 1554, not as offset 0 of the new cycle. -/
theorem claim_C2_failing_eval :
    DAF_YOMI_START_DAY + WHOLE_SHAS_DAFS +
        getNumOfSpecialDays histCal DAF_YOMI_START_DAY (DAF_YOMI_START_DAY + WHOLE_SHAS_DAFS) = 1562 ∧
      histCal.isYomKippur 1562 = false ∧ histCal.isTishaBeav 1562 = false ∧
      getDafYomiYerushalmi histCal 1562 ≠ YerushalmiResult.daf ⟨0, 1⟩ ∧
      getDafYomiYerushalmi histCal 1562 = YerushalmiResult.daf ⟨38, 14⟩ := by
  have h1 : tcompare DAF_YOMI_START_DAY (1562 : Int) = -1 := by decide
  have h2 : DAF_YOMI_START_DAY + WHOLE_SHAS_DAFS +
      getNumOfSpecialDays histCal DAF_YOMI_START_DAY (DAF_YOMI_START_DAY + WHOLE_SHAS_DAFS) = 1562 := by
    decide
  have hcl : cycleLoop histCal 1562 DAF_YOMI_START_DAY DAF_YOMI_START_DAY =
      (DAF_YOMI_START_DAY, 1562) := by
    rw [cycleLoop_step h1, h2]
    exact cycleLoop_exit (by decide)
  have heval : getDafYomiYerushalmi histCal 1562 = YerushalmiResult.daf ⟨38, 14⟩ := by
    unfold getDafYomiYerushalmi
    rw [if_neg (by decide), if_neg (by decide), hcl]
    decide
  refine ⟨h2, by decide, by decide, ?_, heval⟩
  rw [heval]
  decide
